import Mathlib

/-!
Shallow embedding of bbcarchdev/libsupport (src/config.c and src/log.c).

C strings are modelled as Lean `String`s (no interior NUL bytes in any
string the library handles); a `char *` that may be NULL is `Option String`.
The three module-level dictionary pointers (`defaults`, `overrides`,
`config`) are gathered into an explicit `ConfigState`; a NULL pointer is
`none`.  The INI parsing collaborator (iniparser) is not part of this
repository; its dictionary layout (`n`, `key[]`, `val[]`) and the
operations `iniparser_getstring` / `iniparser_set` are modelled from the
spec.  Fallible C operations whose failure is a crash (dereferencing a
NULL dictionary) return `Option`, with `none` standing for undefined
behaviour.
-/

namespace Libsupport

/-- The NUL byte, `'\0'` in C. -/
def NUL : Char := Char.ofNat 0

/-- C `toupper` restricted to the ASCII range, as used by `config_get_bool`. -/
def c_toupper (c : Char) : Char :=
  if 'a' ≤ c ∧ c ≤ 'z' then Char.ofNat (c.toNat - 32) else c

/-- C `isspace` for the default locale: space, tab, newline, vertical tab,
form feed, carriage return. -/
def c_isspace (c : Char) : Bool :=
  c = ' ' || c = '\t' || c = '\n' || c.toNat = 11 || c.toNat = 12 || c = '\r'

/-- Digit-accumulation loop of C `atoi`: consume decimal digits, stop at the
first non-digit. -/
def atoiLoop : List Char → Int → Int
  | [], acc => acc
  | c :: rest, acc =>
    if '0' ≤ c ∧ c ≤ '9' then atoiLoop rest (acc * 10 + ((c.toNat : Int) - ('0'.toNat : Int)))
    else acc

/-- C `atoi`: skip leading whitespace, optional sign, then decimal digits;
a non-numeric string parses as 0.  (Overflow is undefined in C; the model
uses unbounded `Int`, which agrees with C on every input the library
meets.) -/
def atoi (s : String) : Int :=
  match s.data.dropWhile c_isspace with
  | '-' :: rest => - atoiLoop rest 0
  | '+' :: rest => atoiLoop rest 0
  | l => atoiLoop l 0

/-- The C string stored in a byte buffer: the characters before the first
NUL. -/
def cstring (l : List Char) : List Char := l.takeWhile (fun c => c != NUL)

/-- C `strncpy src` into a fresh buffer of `n` bytes: at most `n` characters
of `src` are copied and, when `src` is shorter than `n`, the remainder of
the buffer is filled with NUL bytes.  No terminator is written when `src`
has `n` or more characters. -/
def strncpy (src : List Char) (n : Nat) : List Char :=
  src.take n ++ List.replicate (n - src.length) NUL

/-- The iniparser `dictionary`: an ordered mapping (`key[]` / `val[]`
arrays of length `n`) from string keys to possibly-NULL string values.
Modelled from the spec: an ordered string-keyed, string-valued mapping
with possible absent values. -/
structure dictionary where
  entries : List (String × Option String)
deriving DecidableEq

/-- First value stored for `key`, if any: `some v` when the dictionary has
an entry for `key` (whose value `v` may itself be NULL), `none` when it has
no entry at all. -/
def dict_find : List (String × Option String) → String → Option (Option String)
  | [], _ => none
  | (k, v) :: rest, key => if k = key then some v else dict_find rest key

/-- Replace the value stored for `key`, or append a new entry when the key
is absent. -/
def dict_set : List (String × Option String) → String → Option String →
    List (String × Option String)
  | [], key, v => [(key, v)]
  | (k, w) :: rest, key, v =>
    if k = key then (key, v) :: rest else (k, w) :: dict_set rest key v

/-- Modelled from the spec: the INI parsing collaborator's
`getString(dictionary, key, fallback) -> string-or-fallback` (§6); looking
up a key in a NULL dictionary yields the fallback, and a key stored with a
NULL value yields NULL. -/
def iniparser_getstring (d : Option dictionary) (key : String) (dfl : Option String) :
    Option String :=
  match d with
  | none => dfl
  | some dd =>
    match dict_find dd.entries key with
    | some v => v
    | none => dfl

/-- Modelled from the spec: the INI parsing collaborator's
`set(dictionary, key, value)` (§6): replace or insert the entry for
`key`. -/
def iniparser_set (d : dictionary) (key : String) (v : Option String) : dictionary :=
  ⟨dict_set d.entries key v⟩

/-- The three static dictionary pointers of src/config.c. -/
structure ConfigState where
  defaults : Option dictionary
  overrides : Option dictionary
  config : Option dictionary
deriving DecidableEq

/-- The state `config_init` leaves behind on its success path: fresh empty
`defaults` and `overrides`, no `config` yet. -/
def config_init_state : ConfigState :=
  ⟨some ⟨[]⟩, some ⟨[]⟩, none⟩

/-- `config_get_unlocked_` (src/config.c:283): resolve through `config`
when it exists, else through `overrides`, in both cases falling back to
`defaults` and then to `defval`. -/
def config_get_unlocked_ (st : ConfigState) (key : String) (defval : Option String) :
    Option String :=
  match st.config with
  | some cfg => iniparser_getstring (some cfg) key
      (iniparser_getstring st.defaults key defval)
  | none => iniparser_getstring st.overrides key
      (iniparser_getstring st.defaults key defval)

/-- `config_set` (src/config.c:98): write into `overrides` when it still
exists, else into `config`; `none` models the crash of
`iniparser_set(NULL, ...)` when both dictionaries are absent. -/
def config_set (st : ConfigState) (key value : String) : Option (ConfigState × Int) :=
  match st.overrides with
  | some ov => some ({ st with overrides := some (iniparser_set ov key (some value)) }, 0)
  | none =>
    match st.config with
    | some cfg => some ({ st with config := some (iniparser_set cfg key (some value)) }, 0)
    | none => none

/-- `config_load` (src/config.c:72), parametrised by the result of the
external `iniparser_load` call (`none` = parse failure).  The parse result
is assigned to `config` first; on failure the function returns -1.  On
success every override is written into the new `config` dictionary in
order, then `overrides` is destroyed and cleared; iterating
`overrides->n` with `overrides == NULL` is a crash, modelled as `none`.
(The path lookup via `global:configFile` and the debug log line do not
affect the store.) -/
def config_load (st : ConfigState) (parsed : Option dictionary) :
    Option (ConfigState × Int) :=
  match parsed with
  | none => some ({ st with config := none }, -1)
  | some cfg =>
    match st.overrides with
    | none => none
    | some ov =>
      some ({ st with
                config := some (ov.entries.foldl (fun c kv => iniparser_set c kv.1 kv.2) cfg),
                overrides := none }, 0)

/-- `config_get` (src/config.c:125).  `buf = none` is a NULL buffer;
`buf = some b` is a buffer whose previous contents are `b` and whose size
is `b.length`.  Returns the buffer contents after the call together with
the returned length. -/
def config_get (st : ConfigState) (key : String) (defval : Option String)
    (buf : Option (List Char)) : Option (List Char) × Nat :=
  let ret := config_get_unlocked_ st key defval
  let r := match ret with
    | some s => s.length + 1
    | none => 0
  match buf with
  | none => (none, r)
  | some b =>
    if b.length = 0 then (some b, r)
    else
      match ret with
      | some s => (some ((strncpy s.data b.length).set (b.length - 1) NUL), r)
      | none => (some (((b.set 0 NUL).set (b.length - 1) NUL)), r)

/-- `config_geta` (src/config.c:164): `strdup` of the resolved value, NULL
when nothing resolves.  The copy has the same content as the original, so
the model returns the resolved string itself. -/
def config_geta (st : ConfigState) (key : String) (defval : Option String) :
    Option String :=
  config_get_unlocked_ st key defval

/-- `config_get_bool` (src/config.c:208): resolve with a NULL fallback; if
a value resolved, test its first character (case-insensitively) against
`Y`/`T`/`1`, otherwise `atoi` it; normalise any non-zero result to -1. -/
def config_get_bool (st : ConfigState) (key : String) (defval : Int) : Int :=
  let s := config_get_unlocked_ st key none
  let r : Int := match s with
    | some str =>
      let c := c_toupper (str.data.headD NUL)
      if c = 'Y' ∨ c = 'T' ∨ c = '1' then -1 else atoi str
    | none => defval
  if r ≠ 0 then -1 else 0

/-- Does the primary tier — `config` when it exists, else `overrides` —
lack any entry for `key`?  (A NULL primary dictionary lacks every key.) -/
def primary_misses (st : ConfigState) (key : String) : Bool :=
  match st.config with
  | some cfg => (dict_find cfg.entries key).isNone
  | none =>
    match st.overrides with
    | some ov => (dict_find ov.entries key).isNone
    | none => true

/-- Does the `defaults` dictionary lack any entry for `key`? -/
def defaults_miss (st : ConfigState) (key : String) : Bool :=
  match st.defaults with
  | some d => (dict_find d.entries key).isNone
  | none => true

/-- A loaded-state example: `config` holds `c:k`, `defaults` holds `d:k`,
`overrides` destroyed. -/
def stLoadedEx : ConfigState :=
  ⟨some ⟨[("d:k", some "dv")]⟩, none, some ⟨[("c:k", some "cv")]⟩⟩

/-- An initialized-but-unloaded example: `overrides` holds `o:k`,
`defaults` holds `d:k`, `config` absent. -/
def stInitEx : ConfigState :=
  ⟨some ⟨[("d:k", some "dv")]⟩, some ⟨[("o:k", some "ov")]⟩, none⟩

/-- C1: a lookup resolves in tier order — the value in `config` when
`config` exists and contains K; else the value in `overrides` when
`config` does not exist and `overrides` contains K; else the value in
`defaults` when it contains K; else the caller-supplied fallback.  In
particular a key present only in the loaded file (first conjunct)
resolves to the file's value. -/
theorem config_get_resolution_tiers (st : ConfigState) (K : String) (fb : Option String) :
    (∀ cfg v, st.config = some cfg → dict_find cfg.entries K = some (some v) →
      config_get_unlocked_ st K fb = some v) ∧
    (∀ ov v, st.config = none → st.overrides = some ov →
      dict_find ov.entries K = some (some v) →
      config_get_unlocked_ st K fb = some v) ∧
    (∀ d v, primary_misses st K = true → st.defaults = some d →
      dict_find d.entries K = some (some v) →
      config_get_unlocked_ st K fb = some v) ∧
    (primary_misses st K = true → defaults_miss st K = true →
      config_get_unlocked_ st K fb = fb) := by
  refine ⟨?_, ?_, ?_, ?_⟩
  · intro cfg v hc hf
    simp [config_get_unlocked_, hc, iniparser_getstring, hf]
  · intro ov v hc hov hf
    simp [config_get_unlocked_, hc, hov, iniparser_getstring, hf]
  · intro d v hp hd hf
    unfold config_get_unlocked_
    cases hcfg : st.config with
    | some cfg =>
      rw [primary_misses, hcfg] at hp
      simp only [Option.isNone_iff_eq_none] at hp
      simp [iniparser_getstring, hp, hd, hf]
    | none =>
      rw [primary_misses, hcfg] at hp
      cases hov : st.overrides with
      | some ov2 =>
        rw [hov] at hp
        simp only [Option.isNone_iff_eq_none] at hp
        simp [iniparser_getstring, hp, hd, hf]
      | none => simp [iniparser_getstring, hd, hf]
  · intro hp hd
    unfold config_get_unlocked_
    have hdm : iniparser_getstring st.defaults K fb = fb := by
      rw [defaults_miss] at hd
      cases hdd : st.defaults with
      | some d =>
        rw [hdd] at hd
        simp only [Option.isNone_iff_eq_none] at hd
        simp [iniparser_getstring, hd]
      | none => simp [iniparser_getstring]
    cases hcfg : st.config with
    | some cfg =>
      rw [primary_misses, hcfg] at hp
      simp only [Option.isNone_iff_eq_none] at hp
      simp only [iniparser_getstring, hp]
      exact hdm
    | none =>
      rw [primary_misses, hcfg] at hp
      cases hov : st.overrides with
      | some ov2 =>
        rw [hov] at hp
        simp only [Option.isNone_iff_eq_none] at hp
        simp only [iniparser_getstring, hov, hp]
        exact hdm
      | none =>
        simp only [iniparser_getstring, hov]
        exact hdm

/-- Witness for C1: each tier exercised on a concrete store. -/
theorem config_get_resolution_tiers_witness :
    config_get_unlocked_ stLoadedEx "c:k" (some "fb") = some "cv" ∧
    config_get_unlocked_ stInitEx "o:k" (some "fb") = some "ov" ∧
    config_get_unlocked_ stInitEx "d:k" (some "fb") = some "dv" ∧
    config_get_unlocked_ stInitEx "x:k" (some "fb") = some "fb" :=
  ⟨(config_get_resolution_tiers stLoadedEx "c:k" (some "fb")).1 _ "cv" rfl (by decide),
   (config_get_resolution_tiers stInitEx "o:k" (some "fb")).2.1 _ "ov" rfl rfl (by decide),
   (config_get_resolution_tiers stInitEx "d:k" (some "fb")).2.2.1 _ "dv" (by decide) rfl
     (by decide),
   (config_get_resolution_tiers stInitEx "x:k" (some "fb")).2.2.2 (by decide) (by decide)⟩

theorem dict_find_set_self (l : List (String × Option String)) (k : String)
    (v : Option String) : dict_find (dict_set l k v) k = some v := by
  induction l with
  | nil => simp [dict_set, dict_find]
  | cons hd tl ih =>
    obtain ⟨k1, v1⟩ := hd
    by_cases h : k1 = k
    · simp [dict_set, h, dict_find]
    · simp [dict_set, h, dict_find, ih]

theorem dict_find_set_ne (l : List (String × Option String)) (k k2 : String)
    (v : Option String) (h : k2 ≠ k) : dict_find (dict_set l k2 v) k = dict_find l k := by
  induction l with
  | nil => simp [dict_set, dict_find, h]
  | cons hd tl ih =>
    obtain ⟨k1, v1⟩ := hd
    by_cases h1 : k1 = k2
    · subst h1
      simp [dict_set, dict_find, h]
    · simp [dict_set, h1, dict_find, ih]

theorem mem_dict_set_self (l : List (String × Option String)) (k : String)
    (v : Option String) : (k, v) ∈ dict_set l k v := by
  induction l with
  | nil => simp [dict_set]
  | cons hd tl ih =>
    obtain ⟨k1, v1⟩ := hd
    by_cases h : k1 = k <;> simp [dict_set, h, ih]

theorem keys_dict_set_subset (l : List (String × Option String)) (k : String)
    (v : Option String) (x : String) (hx : x ∈ (dict_set l k v).map Prod.fst) :
    x = k ∨ x ∈ l.map Prod.fst := by
  induction l with
  | nil => simpa [dict_set] using hx
  | cons hd tl ih =>
    obtain ⟨k1, v1⟩ := hd
    by_cases h : k1 = k
    · subst h
      simpa [dict_set] using hx
    · simp only [dict_set, if_neg h, List.map_cons, List.mem_cons] at hx
      rcases hx with hx | hx
      · right
        simp [hx]
      · rcases ih hx with hx | hx
        · exact Or.inl hx
        · exact Or.inr (by simp [hx])

theorem dict_set_keys_nodup (l : List (String × Option String)) (k : String)
    (v : Option String) (h : (l.map Prod.fst).Nodup) :
    ((dict_set l k v).map Prod.fst).Nodup := by
  induction l with
  | nil => simp [dict_set]
  | cons hd tl ih =>
    obtain ⟨k1, v1⟩ := hd
    rw [List.map_cons, List.nodup_cons] at h
    by_cases he : k1 = k
    · subst he
      simpa [dict_set, List.nodup_cons] using h
    · rw [dict_set, if_neg he, List.map_cons, List.nodup_cons]
      refine ⟨fun hmem => ?_, ih h.2⟩
      rcases keys_dict_set_subset tl k v k1 hmem with rfl | hmem
      · exact he rfl
      · exact h.1 hmem

theorem dict_find_foldl_set_of_not_mem (l : List (String × Option String))
    (c : dictionary) (k : String) (h : ∀ p ∈ l, p.1 ≠ k) :
    dict_find ((l.foldl (fun c kv => iniparser_set c kv.1 kv.2) c).entries) k =
      dict_find c.entries k := by
  induction l generalizing c with
  | nil => rfl
  | cons hd tl ih =>
    rw [List.foldl_cons, ih _ (fun p hp => h p (List.mem_cons_of_mem _ hp))]
    exact dict_find_set_ne c.entries k hd.1 hd.2 (h hd (List.mem_cons_self _ _))

theorem dict_find_foldl_set_of_mem (l : List (String × Option String))
    (c : dictionary) (k : String) (w : Option String)
    (hnd : (l.map Prod.fst).Nodup) (hmem : (k, w) ∈ l) :
    dict_find ((l.foldl (fun c kv => iniparser_set c kv.1 kv.2) c).entries) k = some w := by
  induction l generalizing c with
  | nil => cases hmem
  | cons hd tl ih =>
    rw [List.map_cons, List.nodup_cons] at hnd
    rcases List.mem_cons.mp hmem with heq | htl
    · subst heq
      rw [List.foldl_cons]
      rw [dict_find_foldl_set_of_not_mem tl _ k (fun p hp hpk => hnd.1 (by
        rw [← hpk]
        exact List.mem_map.mpr ⟨p, hp, rfl⟩))]
      exact dict_find_set_self c.entries k w
    · rw [List.foldl_cons]
      exact ih _ hnd.2 htl

/-- C2: a key K overridden via `config_set` before `config_load` still
resolves to the overridden value after a successful load, even when the
loaded file also defines K; and the `overrides` dictionary is destroyed
(its pointer null) by the load.  The `Nodup` hypothesis is the dictionary
invariant — `overrides` is built from empty purely by `iniparser_set`,
which never duplicates a key. -/
theorem config_override_survives_load
    (st : ConfigState) (ov parsed : dictionary) (K V : String) (fb : Option String)
    (hov : st.overrides = some ov)
    (hnd : (ov.entries.map Prod.fst).Nodup) :
    ∃ st1 st2 : ConfigState,
      config_set st K V = some (st1, 0) ∧
      config_load st1 (some parsed) = some (st2, 0) ∧
      config_get_unlocked_ st2 K fb = some V ∧
      st2.overrides = none := by
  refine ⟨{ st with overrides := some (iniparser_set ov K (some V)) },
          { st with overrides := none,
                    config := some (((iniparser_set ov K (some V)).entries).foldl
                      (fun c kv => iniparser_set c kv.1 kv.2) parsed) }, ?_, ?_, ?_, rfl⟩
  · simp [config_set, hov]
  · simp [config_load]
  · have hfind : dict_find ((((iniparser_set ov K (some V)).entries).foldl
        (fun c kv => iniparser_set c kv.1 kv.2) parsed).entries) K = some (some V) :=
      dict_find_foldl_set_of_mem _ parsed K (some V)
        (dict_set_keys_nodup ov.entries K (some V) hnd)
        (mem_dict_set_self ov.entries K (some V))
    simp [config_get_unlocked_, iniparser_getstring, hfind]

/-- Witness for C2: override "a:b" before load; the loaded file also
defines "a:b" with a different value; the override wins. -/
theorem config_override_survives_load_witness :
    ∃ st1 st2 : ConfigState,
      config_set stInitEx "a:b" "ov-val" = some (st1, 0) ∧
      config_load st1 (some ⟨[("a:b", some "file-val")]⟩) = some (st2, 0) ∧
      config_get_unlocked_ st2 "a:b" (some "fb") = some "ov-val" ∧
      st2.overrides = none :=
  config_override_survives_load stInitEx ⟨[("o:k", some "ov")]⟩
    ⟨[("a:b", some "file-val")]⟩ "a:b" "ov-val" (some "fb") rfl (by decide)

/-- C3: when the parsing collaborator fails, `config_load` returns -1 and
the store is exactly the state it started from — `config` still null,
`overrides` and `defaults` untouched, so every later lookup resolves
through overrides and defaults exactly as before the call. -/
theorem config_load_parse_failure_atomic (st : ConfigState) (h : st.config = none) :
    config_load st none = some (st, -1) := by
  cases st with
  | mk d o c => simp_all [config_load]

/-- Witness for C3: parse failure on a concrete initialized store. -/
theorem config_load_parse_failure_atomic_witness :
    config_load stInitEx none = some (stInitEx, -1) :=
  config_load_parse_failure_atomic stInitEx rfl

/-- The per-entry match test of `config_get_all`'s loop (src/config.c:259):
`strncmp(key_c, section, strlen(section)) == 0 && key_c[strlen(section)] == ':'`
and, when a key filter is supplied, `strcmp(&key_c[l+1], key) == 0`.  With
NUL-free strings, `strncmp(key_c, section, l) == 0` holds exactly when
`section` is a prefix of `key_c`, and the index and drop accesses are the
corresponding list operations. -/
def entry_matches (sect : String) (key : Option String) (k : String) : Bool :=
  (sect.data.isPrefixOf k.data && (k.data[sect.data.length]? == some ':')) &&
    (match key with
     | none => true
     | some ky => k.data.drop (sect.data.length + 1) == ky.data)

/-- The `for` loop of `config_get_all` (src/config.c:257), instrumented
with the trace of callback invocations: returns the C result (`0` or `-1`)
together with the list of `(key, value)` pairs the callback was invoked
on, in order. -/
def config_get_all_loop (sect : String) (key : Option String)
    (fn : String → Option String → Int) :
    List (String × Option String) → Int × List (String × Option String)
  | [] => (0, [])
  | (k, v) :: rest =>
    if entry_matches sect key k then
      if fn k v ≠ 0 then (-1, [(k, v)])
      else
        let p := config_get_all_loop sect key fn rest
        (p.1, (k, v) :: p.2)
    else config_get_all_loop sect key fn rest

/-- `dict = (config ? config : overrides)` (src/config.c:255). -/
def resolved_dict (st : ConfigState) : Option dictionary :=
  match st.config with
  | some cfg => some cfg
  | none => st.overrides

/-- `config_get_all` (src/config.c:244): iterate the resolved dictionary;
`none` models the crash when both `config` and `overrides` are NULL. -/
def config_get_all (st : ConfigState) (sect : String) (key : Option String)
    (fn : String → Option String → Int) :
    Option (Int × List (String × Option String)) :=
  (resolved_dict st).map (fun d => config_get_all_loop sect key fn d.entries)

/-- The claim's description of a matching entry: its key consists of
`section`, a colon, and — when a key filter is supplied — a suffix equal
to `key`. -/
def entry_matches_spec (sect : String) (key : Option String) (k : String) : Bool :=
  match key with
  | none => (sect.data ++ [':']).isPrefixOf k.data
  | some ky => k.data == sect.data ++ ':' :: ky.data

theorem prefix_colon_iff (s t : List Char) (c : Char) :
    (s <+: t ∧ t[s.length]? = some c) ↔ (s ++ [c]) <+: t := by
  constructor
  · rintro ⟨⟨u, hu⟩, hc⟩
    subst hu
    rw [List.getElem?_append_right (Nat.le_refl _), Nat.sub_self] at hc
    cases u with
    | nil => simp at hc
    | cons c0 r =>
      simp only [List.getElem?_cons_zero, Option.some.injEq] at hc
      subst hc
      exact ⟨r, by simp⟩
  · rintro ⟨u, hu⟩
    subst hu
    refine ⟨⟨c :: u, by simp⟩, ?_⟩
    rw [List.append_assoc, List.singleton_append,
      List.getElem?_append_right (Nat.le_refl _), Nat.sub_self]
    simp

theorem drop_append_cons (s u : List Char) (c : Char) :
    (s ++ c :: u).drop (s.length + 1) = u := by
  rw [show s ++ c :: u = (s ++ [c]) ++ u by simp,
    show s.length + 1 = (s ++ [c]).length by simp, List.drop_left]

/-- The loop's match test, translated from the code, coincides with the
claim's structural description of the key. -/
theorem entry_matches_eq_spec (sect : String) (key : Option String) (k : String) :
    entry_matches sect key k = entry_matches_spec sect key k := by
  have base : (sect.data.isPrefixOf k.data && (k.data[sect.data.length]? == some ':')) =
      (sect.data ++ [':']).isPrefixOf k.data := by
    rw [Bool.eq_iff_iff]
    simp only [Bool.and_eq_true, List.isPrefixOf_iff_prefix, beq_iff_eq]
    exact prefix_colon_iff sect.data k.data ':'
  cases key with
  | none =>
    have h1 : entry_matches sect none k =
        ((sect.data.isPrefixOf k.data && (k.data[sect.data.length]? == some ':')) && true) :=
      rfl
    have h2 : entry_matches_spec sect none k = (sect.data ++ [':']).isPrefixOf k.data := rfl
    rw [h1, h2, Bool.and_true, base]
  | some ky =>
    have h1 : entry_matches sect (some ky) k =
        ((sect.data.isPrefixOf k.data && (k.data[sect.data.length]? == some ':')) &&
          (k.data.drop (sect.data.length + 1) == ky.data)) := rfl
    have h2 : entry_matches_spec sect (some ky) k =
        (k.data == sect.data ++ ':' :: ky.data) := rfl
    rw [h1, h2, base, Bool.eq_iff_iff]
    simp only [Bool.and_eq_true, List.isPrefixOf_iff_prefix, beq_iff_eq]
    constructor
    · rintro ⟨⟨u, hu⟩, hdrop⟩
      rw [← hu, List.append_assoc, List.singleton_append] at hdrop ⊢
      rw [drop_append_cons] at hdrop
      rw [hdrop]
    · intro hk
      rw [hk]
      constructor
      · exact ⟨ky.data, by simp⟩
      · rw [drop_append_cons]

/-- C4's description of the whole call: the matching entries of the
dictionary, in order, cut off just after the first entry on which the
callback returns non-zero (reporting -1); all of them with result 0 when
the callback always returns zero. -/
def get_all_expected (sect : String) (key : Option String)
    (fn : String → Option String → Int) (entries : List (String × Option String)) :
    Int × List (String × Option String) :=
  let m := entries.filter (fun e => entry_matches_spec sect key e.1)
  let pre := m.takeWhile (fun e => fn e.1 e.2 == 0)
  if pre.length = m.length then (0, m) else (-1, m.take (pre.length + 1))

theorem get_all_expected_cons_nomatch (sect : String) (key : Option String)
    (fn : String → Option String → Int) (k : String) (v : Option String)
    (tl : List (String × Option String)) (hm : entry_matches_spec sect key k = false) :
    get_all_expected sect key fn ((k, v) :: tl) = get_all_expected sect key fn tl := by
  simp [get_all_expected, List.filter_cons, hm]

theorem get_all_expected_cons_stop (sect : String) (key : Option String)
    (fn : String → Option String → Int) (k : String) (v : Option String)
    (tl : List (String × Option String)) (hm : entry_matches_spec sect key k = true)
    (hf : ¬ fn k v = 0) :
    get_all_expected sect key fn ((k, v) :: tl) = (-1, [(k, v)]) := by
  have hfb : (fn k v == 0) = false := by simpa using hf
  simp [get_all_expected, List.filter_cons, hm, List.takeWhile_cons, hfb]

theorem get_all_expected_cons_pass (sect : String) (key : Option String)
    (fn : String → Option String → Int) (k : String) (v : Option String)
    (tl : List (String × Option String)) (hm : entry_matches_spec sect key k = true)
    (hf : fn k v = 0) :
    get_all_expected sect key fn ((k, v) :: tl) =
      ((get_all_expected sect key fn tl).1, (k, v) :: (get_all_expected sect key fn tl).2) := by
  have hfb : (fn k v == 0) = true := by simpa using hf
  simp only [get_all_expected, List.filter_cons, hm, if_true, List.takeWhile_cons, hfb,
    List.length_cons]
  by_cases hlen : (List.takeWhile (fun e => fn e.1 e.2 == 0)
      (List.filter (fun e => entry_matches_spec sect key e.1) tl)).length =
      (List.filter (fun e => entry_matches_spec sect key e.1) tl).length
  · simp [hlen]
  · simp [hlen, List.take_succ_cons]

theorem config_get_all_loop_eq_expected (sect : String) (key : Option String)
    (fn : String → Option String → Int) (entries : List (String × Option String)) :
    config_get_all_loop sect key fn entries = get_all_expected sect key fn entries := by
  induction entries with
  | nil => rfl
  | cons hd tl ih =>
    obtain ⟨k, v⟩ := hd
    rw [config_get_all_loop, entry_matches_eq_spec]
    by_cases hm : entry_matches_spec sect key k = true
    · rw [if_pos hm]
      by_cases hf : fn k v = 0
      · rw [if_neg (by simp [hf]), ih, get_all_expected_cons_pass sect key fn k v tl hm hf]
      · rw [if_pos (by simpa using hf), get_all_expected_cons_stop sect key fn k v tl hm hf]
    · rw [if_neg hm, ih,
        get_all_expected_cons_nomatch sect key fn k v tl (by simpa using hm)]

/-- C4: `config_get_all` invokes the callback exactly on the entries of
the resolved dictionary whose key is `section`, a colon, and (when a key
filter is supplied) a suffix equal to `key`, in dictionary order; the
first non-zero callback return stops iteration immediately and the call
returns -1, otherwise it returns 0. -/
theorem config_get_all_filters_and_stops (st : ConfigState) (sect : String)
    (key : Option String) (fn : String → Option String → Int) (d : dictionary)
    (h : resolved_dict st = some d) :
    config_get_all st sect key fn = some (get_all_expected sect key fn d.entries) := by
  rw [config_get_all, h, Option.map_some']
  rw [config_get_all_loop_eq_expected]

/-- Witness for C4: section `s` with entries inside and outside it; the
callback rejects the second matching entry, so the third is never
visited and the call fails. -/
theorem config_get_all_filters_and_stops_witness :
    config_get_all ⟨some ⟨[]⟩, none,
        some ⟨[("s:a", some "1"), ("t:b", some "2"), ("s:b", some "3"), ("s:c", some "4")]⟩⟩
      "s" none (fun k _ => if k = "s:b" then 1 else 0) =
      some (-1, [("s:a", some "1"), ("s:b", some "3")]) := by
  have h := config_get_all_filters_and_stops ⟨some ⟨[]⟩, none,
      some ⟨[("s:a", some "1"), ("t:b", some "2"), ("s:b", some "3"), ("s:c", some "4")]⟩⟩
    "s" none (fun k _ => if k = "s:b" then 1 else 0)
    ⟨[("s:a", some "1"), ("t:b", some "2"), ("s:b", some "3"), ("s:c", some "4")]⟩ rfl
  rw [h]
  decide

theorem config_get_all_loop_trace_sublist (sect : String) (key : Option String)
    (fn : String → Option String → Int) (entries : List (String × Option String)) :
    (config_get_all_loop sect key fn entries).2.Sublist entries := by
  induction entries with
  | nil => simp [config_get_all_loop]
  | cons hd tl ih =>
    obtain ⟨k, v⟩ := hd
    rw [config_get_all_loop]
    by_cases hm : entry_matches sect key k = true
    · rw [if_pos hm]
      by_cases hf : fn k v ≠ 0
      · rw [if_pos hf]
        exact List.cons_sublist_cons.mpr (List.nil_sublist tl)
      · rw [if_neg hf]
        exact List.cons_sublist_cons.mpr ih
    · rw [if_neg hm]
      exact ih.cons _

theorem dict_find_eq_none_iff (l : List (String × Option String)) (k : String) :
    dict_find l k = none ↔ ∀ p ∈ l, p.1 ≠ k := by
  induction l with
  | nil => simp [dict_find]
  | cons hd tl ih =>
    obtain ⟨k1, v1⟩ := hd
    by_cases h : k1 = k <;> simp [dict_find, h, ih]

/-- C10: `config_get_all` iterates only the resolved dictionary (`config`,
or `overrides` before load) and never `defaults`: for a key present only
in `defaults` the callback is never invoked with that key, although
`config_get`'s resolver returns the default value for it. -/
theorem config_get_all_skips_defaults (st : ConfigState) (d dd : dictionary)
    (K v sect : String) (key : Option String) (fn : String → Option String → Int)
    (hres : resolved_dict st = some d)
    (habs : dict_find d.entries K = none)
    (hdef : st.defaults = some dd)
    (hfind : dict_find dd.entries K = some (some v)) :
    (∀ r tr, config_get_all st sect key fn = some (r, tr) → ∀ p ∈ tr, p.1 ≠ K) ∧
    config_get_unlocked_ st K none = some v := by
  constructor
  · intro r tr h p hp
    rw [config_get_all, hres, Option.map_some'] at h
    have heq : config_get_all_loop sect key fn d.entries = (r, tr) := Option.some.inj h
    have hmem : p ∈ d.entries :=
      (config_get_all_loop_trace_sublist sect key fn d.entries).subset
        (by rw [heq]; exact hp)
    exact (dict_find_eq_none_iff d.entries K).mp habs p hmem
  · rw [config_get_unlocked_]
    cases hcfg : st.config with
    | some cfg =>
      simp only [resolved_dict, hcfg, Option.some.injEq] at hres
      subst hres
      simp [iniparser_getstring, habs, hdef, hfind]
    | none =>
      simp only [resolved_dict, hcfg] at hres
      simp [iniparser_getstring, hres, habs, hdef, hfind]

/-- Witness for C10: key `d:k` lives only in `defaults`; iterating section
`d` visits nothing at all, while the resolver returns the default. -/
theorem config_get_all_skips_defaults_witness :
    config_get_all stInitEx "d" none (fun _ _ => 0) = some (0, []) ∧
    config_get_unlocked_ stInitEx "d:k" none = some "dv" :=
  ⟨by decide,
   (config_get_all_skips_defaults stInitEx ⟨[("o:k", some "ov")]⟩ ⟨[("d:k", some "dv")]⟩
     "d:k" "dv" "d" none (fun _ _ => 0) rfl (by decide) rfl (by decide)).2⟩

/-- C5: `config_get_bool` returns true (-1) for every stored value whose
first character is `Y`, `T` or `1` case-insensitively; any other stored
value is parsed by `atoi` and the result is true exactly when the integer
is non-zero; when no value resolves the result is the truthiness of
`defval` (so "Y", "yes", "T", "true", "1" parse true and "0", "no",
"false", "" parse false). -/
theorem config_get_bool_parsing (st : ConfigState) (key : String) (defval : Int) :
    (∀ s, config_get_unlocked_ st key none = some s →
      (c_toupper (s.data.headD NUL) = 'Y' ∨ c_toupper (s.data.headD NUL) = 'T' ∨
        c_toupper (s.data.headD NUL) = '1') →
      config_get_bool st key defval = -1) ∧
    (∀ s, config_get_unlocked_ st key none = some s →
      ¬(c_toupper (s.data.headD NUL) = 'Y' ∨ c_toupper (s.data.headD NUL) = 'T' ∨
        c_toupper (s.data.headD NUL) = '1') →
      config_get_bool st key defval = (if atoi s ≠ 0 then -1 else 0)) ∧
    (config_get_unlocked_ st key none = none →
      config_get_bool st key defval = (if defval ≠ 0 then -1 else 0)) := by
  refine ⟨?_, ?_, ?_⟩
  · intro s hs hc
    simp only [config_get_bool, hs]
    rw [if_pos hc]
    simp
  · intro s hs hc
    simp only [config_get_bool, hs]
    rw [if_neg hc]
  · intro hs
    simp only [config_get_bool, hs]

/-- A store exercising the boolean parse paths. -/
def stBoolEx : ConfigState :=
  ⟨some ⟨[]⟩, none, some ⟨[("b:yes", some "yes"), ("b:true", some "true"),
    ("b:one", some "1"), ("b:no", some "no"), ("b:zero", some "0"), ("b:empty", some "")]⟩⟩

/-- Witness for C5: "yes" is true via its first character, "no" is false
via `atoi`, and a missing key yields the truthiness of `defval`. -/
theorem config_get_bool_parsing_witness :
    config_get_bool stBoolEx "b:yes" 0 = -1 ∧
    config_get_bool stBoolEx "b:no" 1 = 0 ∧
    config_get_bool stBoolEx "b:missing" 5 = -1 := by
  refine ⟨(config_get_bool_parsing stBoolEx "b:yes" 0).1 "yes" (by decide) (by decide),
    ?_, ?_⟩
  · rw [(config_get_bool_parsing stBoolEx "b:no" 1).2.1 "no" (by decide) (by decide)]
    decide
  · rw [(config_get_bool_parsing stBoolEx "b:missing" 5).2.2 (by decide)]
    decide

/-- Case-insensitive string equality, as tested by C `strcasecmp` for the
ASCII strings the parsers compare against. -/
def strcasecmp_eq (a b : List Char) : Bool :=
  a.map c_toupper == b.map c_toupper

/-- `log_parse_level` (src/log.c:169), with the POSIX numeric values of
the syslog level macros (LOG_EMERG = 0 ... LOG_DEBUG = 7); an
unrecognised name falls through to `atoi`. -/
def log_parse_level (s : List Char) : Int :=
  if strcasecmp_eq s "emerg".data || strcasecmp_eq s "emergency".data then 0
  else if strcasecmp_eq s "alert".data then 1
  else if strcasecmp_eq s "crit".data || strcasecmp_eq s "critical".data then 2
  else if strcasecmp_eq s "err".data || strcasecmp_eq s "error".data then 3
  else if strcasecmp_eq s "warn".data || strcasecmp_eq s "warning".data then 4
  else if strcasecmp_eq s "notice".data then 5
  else if strcasecmp_eq s "info".data then 6
  else if strcasecmp_eq s "debug".data then 7
  else atoi ⟨s⟩

/-- `log_parse_facility` (src/log.c:183), with the Linux syslog.h facility
values; the LOG_SECURITY and LOG_REMOTAUTH blocks are compiled out on
this platform, and an unrecognised name falls back to LOG_USER (8). -/
def log_parse_facility (s : List Char) : Int :=
  if strcasecmp_eq s "auth".data then 32
  else if strcasecmp_eq s "authpriv".data then 80
  else if strcasecmp_eq s "cron".data then 72
  else if strcasecmp_eq s "daemon".data then 24
  else if strcasecmp_eq s "ftp".data then 88
  else if strcasecmp_eq s "kern".data then 0
  else if strcasecmp_eq s "lpr".data then 48
  else if strcasecmp_eq s "mail".data then 16
  else if strcasecmp_eq s "news".data then 56
  else if strcasecmp_eq s "syslog".data then 40
  else if strcasecmp_eq s "uucp".data then 64
  else if strcasecmp_eq s "user".data then 8
  else if strcasecmp_eq s "local0".data then 128
  else if strcasecmp_eq s "local1".data then 136
  else if strcasecmp_eq s "local2".data then 144
  else if strcasecmp_eq s "local3".data then 152
  else if strcasecmp_eq s "local4".data then 160
  else if strcasecmp_eq s "local5".data then 168
  else if strcasecmp_eq s "local6".data then 176
  else if strcasecmp_eq s "local7".data then 184
  else 8

/-- The static logger state of src/log.c:27, C `int`s kept as integers
(zero = false). -/
structure LogState where
  log_is_open : Int
  log_use_config : Int
  log_stderr : Int
  log_level : Int
  log_facility : Int
  log_syslog : Int
  log_ident : String
deriving DecidableEq

/-- The initial values of the logger statics: closed, direct values,
stderr flag 0, LOG_NOTICE (5), LOG_DAEMON (24), syslog 1,
ident "(unknown)". -/
def log_initial_state : LogState := ⟨0, 0, 0, 5, 24, 1, "(unknown)"⟩

/-- The C-string a call to `config_get` leaves in a `bufsize`-byte stack
buffer. -/
def config_get_cstr (st : ConfigState) (key : String) (defval : Option String)
    (bufsize : Nat) : List Char :=
  cstring (((config_get st key defval (some (List.replicate bufsize NUL))).1).getD [])

/-- `log_open` (src/log.c:130).  `openlog`/`closelog` touch only the
external syslog channel; the state effect is re-reading the
configuration-derived fields (through 32-byte buffers) when
`log_use_config` is set, and marking the channel open.  The ident read
from configuration lives in the stack buffer handed to `openlog`; the
global `log_ident` is not updated by it. -/
def log_open (st : LogState) (cfg : ConfigState) : LogState :=
  if st.log_use_config ≠ 0 then
    { st with
        log_stderr := config_get_bool cfg "log:stderr" 0,
        log_syslog := config_get_bool cfg "log:syslog" 1,
        log_level := log_parse_level (config_get_cstr cfg "log:level" (some "notice") 32),
        log_facility := log_parse_facility (config_get_cstr cfg "log:facility" (some "user") 32),
        log_is_open := 1 }
  else
    { st with log_is_open := 1 }

/-- Where one emission went. -/
inductive LogOutput where
  | dropped
  | toSyslog (level : Int) (msg : String)
  | toStderr (text : String)
deriving DecidableEq

/-- `log_vprintf` (src/log.c:98), with the formatted message abstracted
as `msg`: open the channel if it is not open, drop the message when its
level exceeds the threshold, otherwise emit it to syslog, or to standard
error prefixed by the identity string and ": ". -/
def log_vprintf (st : LogState) (cfg : ConfigState) (level : Int) (msg : String) :
    LogState × LogOutput :=
  let st1 := if st.log_is_open = 0 then log_open st cfg else st
  if level > st1.log_level then (st1, .dropped)
  else if st1.log_syslog ≠ 0 then (st1, .toSyslog level msg)
  else (st1, .toStderr (st1.log_ident ++ ": " ++ msg))

/-- `log_printf` (src/log.c:120) forwards its varargs to `log_vprintf`. -/
def log_printf (st : LogState) (cfg : ConfigState) (level : Int) (msg : String) :
    LogState × LogOutput :=
  log_vprintf st cfg level msg

/-- C6: an emission whose level is numerically greater than the (post
lazy-open) threshold produces no output; otherwise it goes to syslog when
syslog routing is enabled, and to standard error prefixed by the identity
string and a colon when it is disabled. -/
theorem log_vprintf_gate_and_routing (st : LogState) (cfg : ConfigState)
    (level : Int) (msg : String) :
    (level > (if st.log_is_open = 0 then log_open st cfg else st).log_level →
      (log_vprintf st cfg level msg).2 = LogOutput.dropped) ∧
    (level ≤ (if st.log_is_open = 0 then log_open st cfg else st).log_level →
      (if st.log_is_open = 0 then log_open st cfg else st).log_syslog ≠ 0 →
      (log_vprintf st cfg level msg).2 = LogOutput.toSyslog level msg) ∧
    (level ≤ (if st.log_is_open = 0 then log_open st cfg else st).log_level →
      (if st.log_is_open = 0 then log_open st cfg else st).log_syslog = 0 →
      (log_vprintf st cfg level msg).2 = LogOutput.toStderr
        ((if st.log_is_open = 0 then log_open st cfg else st).log_ident ++ ": " ++ msg)) ∧
    log_printf st cfg level msg = log_vprintf st cfg level msg := by
  refine ⟨?_, ?_, ?_, rfl⟩
  · intro h
    simp only [log_vprintf]
    rw [if_pos h]
  · intro h hs
    simp only [log_vprintf]
    rw [if_neg (not_lt.mpr h), if_pos hs]
  · intro h hs
    simp only [log_vprintf]
    rw [if_neg (not_lt.mpr h), if_neg (by simp [hs])]

/-- Witness for C6: with an open channel at threshold LOG_NOTICE (5), a
debug message (7) is dropped; an error message (3) goes to syslog when
`log_syslog` is set and to standard error with the "ident: " prefix when
it is not. -/
theorem log_vprintf_gate_and_routing_witness :
    (log_vprintf ⟨1, 0, 0, 5, 24, 1, "app"⟩ config_init_state 7 "m").2 =
      LogOutput.dropped ∧
    (log_vprintf ⟨1, 0, 0, 5, 24, 1, "app"⟩ config_init_state 3 "m").2 =
      LogOutput.toSyslog 3 "m" ∧
    (log_vprintf ⟨1, 0, 0, 5, 24, 0, "app"⟩ config_init_state 3 "m").2 =
      LogOutput.toStderr ("app" ++ ": " ++ "m") :=
  ⟨(log_vprintf_gate_and_routing ⟨1, 0, 0, 5, 24, 1, "app"⟩ config_init_state 7 "m").1
      (by decide),
   (log_vprintf_gate_and_routing ⟨1, 0, 0, 5, 24, 1, "app"⟩ config_init_state 3 "m").2.1
      (by decide) (by decide),
   (log_vprintf_gate_and_routing ⟨1, 0, 0, 5, 24, 0, "app"⟩ config_init_state 3 "m").2.2.1
      (by decide) (by decide)⟩

theorem cstring_cons_nul (u : List Char) : cstring (NUL :: u) = [] := by
  simp [cstring, List.takeWhile_cons]

theorem cstring_append_nul_cons (t u : List Char) (h : NUL ∉ t) :
    cstring (t ++ NUL :: u) = t := by
  induction t with
  | nil => simpa using cstring_cons_nul u
  | cons c rest ih =>
    rw [List.mem_cons, not_or] at h
    have hc : (c != NUL) = true := by
      simp only [bne_iff_ne, ne_eq]
      exact fun hcc => h.1 hcc.symm
    have ih2 := ih h.2
    simp only [cstring] at ih2 ⊢
    rw [List.cons_append, List.takeWhile_cons]
    simp [hc, ih2]

theorem replicate_set_self (m i : Nat) (c : Char) :
    (List.replicate m c).set i c = List.replicate m c := by
  induction m generalizing i with
  | zero => rfl
  | succ m2 ih =>
    cases i with
    | zero => simp [List.replicate_succ, List.set]
    | succ i2 =>
      simp only [List.replicate_succ, List.set]
      rw [ih i2]

theorem set_append_ge (l1 l2 : List Char) (i : Nat) (c : Char) (h : l1.length ≤ i) :
    (l1 ++ l2).set i c = l1 ++ l2.set (i - l1.length) c := by
  induction l1 generalizing i with
  | nil => simp
  | cons a tl ih =>
    cases i with
    | zero => exact absurd h (by simp)
    | succ i2 =>
      have hstep : ((a :: tl) ++ l2).set (i2 + 1) c = a :: ((tl ++ l2).set i2 c) := rfl
      have hidx : i2 + 1 - (a :: tl).length = i2 - tl.length := by
        simp only [List.length_cons]
        omega
      rw [hstep, hidx, ih i2 (by simpa using h), List.cons_append]

theorem strncpy_length (src : List Char) (n : Nat) : (strncpy src n).length = n := by
  simp only [strncpy, List.length_append, List.length_take, List.length_replicate]
  omega

/-- The C string `config_get` leaves in a buffer of size `n` when the
resolved value is `s`: the value truncated to the first `n - 1`
characters. -/
theorem config_get_buffer_cstring (s : List Char) (n : Nat) (hn : 0 < n)
    (hs : NUL ∉ s) :
    cstring ((strncpy s n).set (n - 1) NUL) = s.take (n - 1) := by
  by_cases hle : n ≤ s.length
  · have hstr : strncpy s n = s.take n := by
      have hrep : n - s.length = 0 := by omega
      simp [strncpy, hrep]
    have hlt : n - 1 < (s.take n).length := by
      rw [List.length_take]
      omega
    rw [hstr, List.set_eq_take_cons_drop NUL hlt, List.take_take,
      show min (n - 1) n = n - 1 by omega]
    exact cstring_append_nul_cons _ _ (fun hmem => hs (List.take_subset _ _ hmem))
  · push_neg at hle
    have hrep : n - s.length = (n - s.length - 1) + 1 := by omega
    have hm : NUL :: List.replicate (n - s.length - 1) NUL
        = List.replicate (n - s.length) NUL := by
      conv_rhs => rw [hrep]
      rw [List.replicate_succ]
    have hstr : strncpy s n = s ++ NUL :: List.replicate (n - s.length - 1) NUL := by
      rw [strncpy, List.take_of_length_le (by omega), ← hm]
    rw [hstr, set_append_ge _ _ _ _ (by omega), hm, replicate_set_self, ← hm,
      cstring_append_nul_cons _ _ hs]
    exact (List.take_of_length_le (by omega)).symm

/-- C9: with a non-null buffer of positive size the buffer comes back
NUL-terminated within its size (its last byte is 0), holding the resolved
value truncated to `bufsize - 1` characters; the returned length is
`strlen(resolved) + 1` when a value resolves and 0 otherwise, independent
of the buffer; a null buffer or a zero size writes nothing and only
reports that length. -/
theorem config_get_buffer_safety (st : ConfigState) (key : String)
    (defval : Option String) :
    (config_get st key defval none =
      (none, match config_get_unlocked_ st key defval with
             | some s => s.length + 1
             | none => 0)) ∧
    (config_get st key defval (some []) =
      (some [], match config_get_unlocked_ st key defval with
                | some s => s.length + 1
                | none => 0)) ∧
    (∀ b : List Char, b ≠ [] →
      (config_get st key defval (some b)).2 =
        (match config_get_unlocked_ st key defval with
         | some s => s.length + 1
         | none => 0) ∧
      ∃ b2, (config_get st key defval (some b)).1 = some b2 ∧
        b2.length = b.length ∧ b2[b.length - 1]? = some NUL) ∧
    (∀ (b : List Char) (s : String), b ≠ [] →
      config_get_unlocked_ st key defval = some s → NUL ∉ s.data →
      cstring (((config_get st key defval (some b)).1).getD []) =
        s.data.take (b.length - 1)) := by
  refine ⟨rfl, by simp [config_get], ?_, ?_⟩
  · intro b hb
    have hb0 : ¬ b.length = 0 := fun h0 => hb (List.length_eq_zero.mp h0)
    have hbpos : 0 < b.length := Nat.pos_of_ne_zero hb0
    cases hret : config_get_unlocked_ st key defval with
    | some s =>
      simp only [config_get, hret]
      rw [if_neg hb0]
      refine ⟨rfl, _, rfl, ?_, ?_⟩
      · rw [List.length_set, strncpy_length]
      · exact List.getElem?_set_eq_of_lt NUL (by rw [strncpy_length]; omega)
    | none =>
      simp only [config_get, hret]
      rw [if_neg hb0]
      refine ⟨rfl, _, rfl, ?_, ?_⟩
      · rw [List.length_set, List.length_set]
      · exact List.getElem?_set_eq_of_lt NUL (by rw [List.length_set]; omega)
  · intro b s hb hret hnul
    have hb0 : ¬ b.length = 0 := fun h0 => hb (List.length_eq_zero.mp h0)
    simp only [config_get, hret]
    rw [if_neg hb0]
    exact config_get_buffer_cstring s.data b.length (Nat.pos_of_ne_zero hb0) hnul

/-- Witness for C9: a 2-byte buffer receiving the 3-character value "abc"
is truncated and terminated, and the reported length is 4 regardless. -/
theorem config_get_buffer_safety_witness :
    ((config_get stLoadedEx "c:k" none (some ['x', 'y'])).2 =
        (match config_get_unlocked_ stLoadedEx "c:k" none with
         | some s => s.length + 1
         | none => 0) ∧
      ∃ b2, (config_get stLoadedEx "c:k" none (some ['x', 'y'])).1 = some b2 ∧
        b2.length = (['x', 'y'] : List Char).length ∧
        b2[(['x', 'y'] : List Char).length - 1]? = some NUL) ∧
    cstring (((config_get stLoadedEx "c:k" none (some ['x', 'y'])).1).getD []) =
      "cv".data.take 1 :=
  ⟨(config_get_buffer_safety stLoadedEx "c:k" none).2.2.1 ['x', 'y'] (by decide),
   (config_get_buffer_safety stLoadedEx "c:k" none).2.2.2 ['x', 'y'] "cv"
     (by decide) (by decide) (by decide)⟩

/-- Helper shared by the fallback theorems: when every tier misses a key,
the resolver returns the caller-supplied fallback itself. -/
theorem unlocked_eq_defval_of_miss (st : ConfigState) (K : String) (fb : Option String)
    (hp : primary_misses st K = true) (hd : defaults_miss st K = true) :
    config_get_unlocked_ st K fb = fb := by
  have hdm : iniparser_getstring st.defaults K fb = fb := by
    rw [defaults_miss] at hd
    cases hdd : st.defaults with
    | some d =>
      rw [hdd] at hd
      simp only [Option.isNone_iff_eq_none] at hd
      simp [iniparser_getstring, hd]
    | none => simp [iniparser_getstring]
  rw [config_get_unlocked_]
  cases hcfg : st.config with
  | some cfg =>
    rw [primary_misses, hcfg] at hp
    simp only [Option.isNone_iff_eq_none] at hp
    simp only [iniparser_getstring, hp]
    exact hdm
  | none =>
    rw [primary_misses, hcfg] at hp
    cases hov : st.overrides with
    | some ov2 =>
      rw [hov] at hp
      simp only [Option.isNone_iff_eq_none] at hp
      simp only [iniparser_getstring, hov, hp]
      exact hdm
    | none =>
      simp only [iniparser_getstring, hov]
      exact hdm

/-- Counterexample to C7 as stated: key "x:y" is absent from every tier of
`stInitEx` and the fallback is "ab", yet with a (non-null) 2-byte buffer
`config_get` stores the truncation "a", not "ab" byte-for-byte. -/
theorem config_get_fallback_truncation_cex :
    (config_get stInitEx "x:y" (some "ab") (some ['x', 'y'])).1 = some ['a', NUL] ∧
    cstring ['a', NUL] ≠ "ab".data := by
  constructor
  · decide
  · decide

/-- C7 amended: for a key absent from config, overrides and defaults, the
resolver yields the fallback itself, and whenever the non-null buffer has
room for it (`bufsize ≥ strlen(fallback) + 1`) the buffer receives the
fallback exactly, byte-for-byte; a smaller positive `bufsize` receives a
NUL-terminated truncation instead (see the counterexample) and a zero
`bufsize` receives nothing. -/
theorem config_get_fallback_exact (st : ConfigState) (K fb : String) (b : List Char)
    (hp : primary_misses st K = true) (hd : defaults_miss st K = true)
    (hnul : NUL ∉ fb.data) (hlen : fb.length + 1 ≤ b.length) :
    config_get_unlocked_ st K (some fb) = some fb ∧
    cstring (((config_get st K (some fb) (some b)).1).getD []) = fb.data := by
  have hret := unlocked_eq_defval_of_miss st K (some fb) hp hd
  refine ⟨hret, ?_⟩
  have hdl : fb.data.length = fb.length := rfl
  have hb0 : ¬ b.length = 0 := by omega
  simp only [config_get, hret]
  rw [if_neg hb0]
  show cstring ((strncpy fb.data b.length).set (b.length - 1) NUL) = fb.data
  rw [config_get_buffer_cstring fb.data b.length (by omega) hnul]
  exact List.take_of_length_le (by omega)

/-- Witness for C7 (amended): fallback "ab" in a 3-byte buffer comes back
exactly. -/
theorem config_get_fallback_exact_witness :
    config_get_unlocked_ stInitEx "x:y" (some "ab") = some "ab" ∧
    cstring (((config_get stInitEx "x:y" (some "ab") (some ['x', 'y', 'z'])).1).getD []) =
      "ab".data :=
  config_get_fallback_exact stInitEx "x:y" "ab" ['x', 'y', 'z']
    (by decide) (by decide) (by decide) (by decide)

/-- C8: the string `config_geta` allocates for a key has exactly the
content of the buffer `config_get` fills for the same key and fallback,
whenever a value resolves and the buffer can hold it. -/
theorem config_geta_config_get_roundtrip (st : ConfigState) (key : String)
    (defval : Option String) (s : String) (b : List Char)
    (hret : config_get_unlocked_ st key defval = some s)
    (hnul : NUL ∉ s.data) (hlen : s.length + 1 ≤ b.length) :
    (config_geta st key defval).map String.data =
      some (cstring (((config_get st key defval (some b)).1).getD [])) := by
  have hdl : s.data.length = s.length := rfl
  have hb0 : ¬ b.length = 0 := by omega
  have hbuf : cstring (((config_get st key defval (some b)).1).getD []) = s.data := by
    simp only [config_get, hret]
    rw [if_neg hb0]
    show cstring ((strncpy s.data b.length).set (b.length - 1) NUL) = s.data
    rw [config_get_buffer_cstring s.data b.length (by omega) hnul]
    exact List.take_of_length_le (by omega)
  rw [config_geta, hret, Option.map_some', hbuf]

/-- Witness for C8: the allocated string and the filled buffer agree for
the loaded value "cv". -/
theorem config_geta_config_get_roundtrip_witness :
    (config_geta stLoadedEx "c:k" (some "fb")).map String.data =
      some (cstring (((config_get stLoadedEx "c:k" (some "fb")
        (some ['x', 'y', 'z'])).1).getD [])) :=
  config_geta_config_get_roundtrip stLoadedEx "c:k" (some "fb") "cv" ['x', 'y', 'z']
    (by decide) (by decide) (by decide)

end Libsupport
